import Mathlib

/-!
Verification of the download pipeline of `blazinglyassmc` (src/src/main.rs).

The pipeline is shallowly embedded: the filesystem is a finite map from
path strings to file contents, the network is a function from URLs to
either a response body or a transport-level error, and each Rust function
becomes a Lean function threading an explicit state.  A Rust panic
(`unwrap` on a failed operation) is modelled as `Except.error`; the
state at the moment of the panic is returned alongside, so that theorems
can speak about which files an aborted run has written.

JSON documents are modelled by the inductive `Json`, with `Json.parse`
and `Json.toString` modelling `serde_json` on the escape-free, integer
subset used throughout: objects are kept sorted by key with
last-duplicate-wins, matching `serde_json`'s default `BTreeMap`-backed
`Map`, and `Json.toString` produces the compact serialization that
`serde_json::Value::to_string` produces.
-/

/-- JSON values as `serde_json::Value`; object entries are kept sorted by
key, as in `serde_json`'s default `BTreeMap`-backed map. -/
inductive Json where
| null : Json
| bool (b : Bool) : Json
| num (n : Int) : Json
| str (s : String) : Json
| arr (elems : List Json) : Json
| obj (entries : List (String × Json)) : Json

/-- Decimal rendering of an integer, as `serde_json` prints integers. -/
def intRepr : Int → String
| Int.ofNat m => Nat.repr m
| Int.negSucc m => "-" ++ Nat.repr (m + 1)

mutual

/-- Compact serialization, modelling `serde_json::Value::to_string()`. -/
def Json.toString : Json → String
| Json.null => "null"
| Json.bool true => "true"
| Json.bool false => "false"
| Json.num n => intRepr n
| Json.str s => "\"" ++ s ++ "\""
| Json.arr xs => "[" ++ Json.toStringElems xs ++ "]"
| Json.obj kvs => "\x7b" ++ Json.toStringEntries kvs ++ "\x7d"

/-- Comma-separated serialization of array elements. -/
def Json.toStringElems : List Json → String
| [] => ""
| [x] => Json.toString x
| x :: y :: rest => Json.toString x ++ "," ++ Json.toStringElems (y :: rest)

/-- Comma-separated serialization of object entries. -/
def Json.toStringEntries : List (String × Json) → String
| [] => ""
| [(k, v)] => "\"" ++ k ++ "\":" ++ Json.toString v
| (k, v) :: e :: rest =>
  "\"" ++ k ++ "\":" ++ Json.toString v ++ "," ++ Json.toStringEntries (e :: rest)

end

/-- Lexicographic order on character lists by code point; on UTF-8
strings this coincides with Rust's byte-wise `String` ordering. -/
def charListLt : List Char → List Char → Bool
| [], [] => false
| [], _ :: _ => true
| _ :: _, [] => false
| c :: cs, d :: ds =>
  if c.toNat < d.toNat then true
  else if d.toNat < c.toNat then false
  else charListLt cs ds

/-- Rust's `String` ordering, as used by `BTreeMap<String, _>` keys. -/
def strLt (a b : String) : Bool := charListLt a.data b.data

/-- Insertion into a key-sorted association list, replacing an existing
binding; models `BTreeMap::insert` (later duplicate keys win). -/
def insertKv (k : String) (v : Json) : List (String × Json) → List (String × Json)
| [] => [(k, v)]
| (k', v') :: rest =>
  if strLt k k' then (k, v) :: (k', v') :: rest
  else if k = k' then (k, v) :: rest
  else (k', v') :: insertKv k v rest

/-- Skip JSON whitespace. -/
def skipWs : List Char → List Char
| [] => []
| c :: rest =>
  if c = ' ' ∨ c = '\n' ∨ c = '\t' ∨ c = '\r' then skipWs rest else c :: rest

/-- Parse the remainder of a JSON string literal (after the opening
quote); the escape-free subset. -/
def parseStringBody : List Char → Option (String × List Char)
| [] => none
| c :: rest =>
  if c = '"' then some ("", rest)
  else if c = '\\' then none
  else
    match parseStringBody rest with
    | some (s, r) => some (String.mk (c :: s.data), r)
    | none => none

/-- Greedily take decimal digits. -/
def takeDigits : List Char → (List Char × List Char)
| [] => ([], [])
| c :: rest =>
  if c.isDigit then
    let (d, r) := takeDigits rest
    (c :: d, r)
  else ([], c :: rest)

/-- Digit list to number, most significant first. -/
def digitsToNat (acc : Nat) : List Char → Nat
| [] => acc
| c :: rest => digitsToNat (acc * 10 + (c.toNat - 48)) rest

/-- A redundant leading zero, rejected by `serde_json`. -/
def leadingZeroBad : List Char → Bool
| '0' :: _ :: _ => true
| _ => false

/-- Parse an integer JSON number. -/
def parseNumber (cs : List Char) : Option (Json × List Char) :=
  match cs with
  | '-' :: rest =>
    match takeDigits rest with
    | ([], _) => none
    | (ds, r) =>
      if leadingZeroBad ds then none
      else some (Json.num (-(digitsToNat 0 ds : Int)), r)
  | _ =>
    match takeDigits cs with
    | ([], _) => none
    | (ds, r) =>
      if leadingZeroBad ds then none
      else some (Json.num (digitsToNat 0 ds), r)

mutual

/-- Fuel-indexed recursive-descent JSON value parser. -/
def parseVal : Nat → List Char → Option (Json × List Char)
| 0, _ => none
| Nat.succ f, cs =>
  match skipWs cs with
  | [] => none
  | c :: rest =>
    if c = 'n' then
      match rest with
      | 'u' :: 'l' :: 'l' :: r => some (Json.null, r)
      | _ => none
    else if c = 't' then
      match rest with
      | 'r' :: 'u' :: 'e' :: r => some (Json.bool true, r)
      | _ => none
    else if c = 'f' then
      match rest with
      | 'a' :: 'l' :: 's' :: 'e' :: r => some (Json.bool false, r)
      | _ => none
    else if c = '"' then
      match parseStringBody rest with
      | some (s, r) => some (Json.str s, r)
      | none => none
    else if c = '[' then
      match skipWs rest with
      | c2 :: r2 =>
        if c2 = ']' then some (Json.arr [], r2) else parseElems f (c2 :: r2) []
      | [] => none
    else if c = Char.ofNat 123 then
      match skipWs rest with
      | c2 :: r2 =>
        if c2 = Char.ofNat 125 then some (Json.obj [], r2)
        else parseEntries f (c2 :: r2) []
      | [] => none
    else parseNumber (c :: rest)

/-- Parse the elements of a nonempty JSON array. -/
def parseElems : Nat → List Char → List Json → Option (Json × List Char)
| 0, _, _ => none
| Nat.succ f, cs, acc =>
  match parseVal f cs with
  | none => none
  | some (v, r) =>
    match skipWs r with
    | c :: r2 =>
      if c = ',' then parseElems f r2 (v :: acc)
      else if c = ']' then some (Json.arr (List.reverse (v :: acc)), r2)
      else none
    | [] => none

/-- Parse the entries of a nonempty JSON object. -/
def parseEntries : Nat → List Char → List (String × Json) → Option (Json × List Char)
| 0, _, _ => none
| Nat.succ f, cs, acc =>
  match skipWs cs with
  | c :: r =>
    if c = '"' then
      match parseStringBody r with
      | some (k, r2) =>
        match skipWs r2 with
        | c2 :: r3 =>
          if c2 = ':' then
            match parseVal f r3 with
            | some (v, r4) =>
              match skipWs r4 with
              | c3 :: r5 =>
                if c3 = ',' then parseEntries f r5 (insertKv k v acc)
                else if c3 = Char.ofNat 125 then
                  some (Json.obj (insertKv k v acc), r5)
                else none
              | [] => none
            | none => none
          else none
        | [] => none
      | none => none
    else none
  | [] => none

end

/-- Parse a full JSON document, modelling `serde_json::from_str` /
`Response::json()` on the integer, escape-free subset; the whole input
must be consumed. -/
def Json.parse (s : String) : Option Json :=
  match parseVal (4 * (s.data.length + 1)) s.data with
  | some (j, r) =>
    match skipWs r with
    | [] => some j
    | _ => none
  | none => none

/-- `Value::as_str()`. -/
def Json.asStr : Json → Option String
| Json.str s => some s
| _ => none

/-- `Value::as_array()`. -/
def Json.asArray : Json → Option (List Json)
| Json.arr xs => some xs
| _ => none

/-- `Value::as_object()` (the entry list, key-sorted, matching iteration
order of the `BTreeMap`-backed map). -/
def Json.asObject : Json → Option (List (String × Json))
| Json.obj kvs => some kvs
| _ => none

/-- Lookup in an object's entry list. -/
def lookupKv : List (String × Json) → String → Option Json
| [], _ => none
| (k', v) :: rest, k => if k' = k then some v else lookupKv rest k

/-- `Value::get(&str)`: `some` only on objects holding the key. -/
def Json.getKey : Json → String → Option Json
| Json.obj kvs, k => lookupKv kvs k
| _, _ => none

/-- `value[key]` indexing on `&Value`: `Null` when the key is missing or
the value is not an object. -/
def Json.index (j : Json) (k : String) : Json :=
  (j.getKey k).getD Json.null

/-- `Value::get(0usize)`: the first element of an array, `none` on empty
arrays and non-arrays. -/
def Json.get0 : Json → Option Json
| Json.arr (x :: _) => some x
| _ => none

/-- `Value == &str` (so `PartialEq<&str> for Value`): true iff the value
is a string equal to the operand. -/
def Json.eqStr (j : Json) (s : String) : Bool :=
  match j with
  | Json.str t => t == s
  | _ => false

/-- The filesystem, as a finite map from path strings to file contents
(directories are not modelled; `create_dir_all` has no file-level
effect and cannot fail in the runs considered). -/
abbrev Fs := List (String × String)

/-- File contents at a path. -/
def Fs.lookup : Fs → String → Option String
| [], _ => none
| (q, d) :: rest, p => if q = p then some d else Fs.lookup rest p

/-- `Path::exists()` for a file path. -/
def Fs.hasPath (fs : Fs) (p : String) : Bool :=
  (Fs.lookup fs p).isSome

/-- `fs::write`: create or overwrite the file at `p`. -/
def Fs.write : Fs → String → String → Fs
| [], p, data => [(p, data)]
| (q, d) :: rest, p, data =>
  if q = p then (p, data) :: rest else (q, d) :: Fs.write rest p data

/-- Program state: the filesystem plus the ordered log of every URL for
which a network GET was issued. -/
structure St where
  fs : Fs
  log : List String
deriving DecidableEq

/-- The network: each URL either answers with a body or fails at the
transport level (the spec's `NetworkError`, covering connection
failures and non-2xx statuses). -/
abbrev Net := String → Except String String

/-- Issue a GET: the URL is logged whether or not the request succeeds. -/
def netFetch (net : Net) (σ : St) (url : String) : St × Except String String :=
  match net url with
  | Except.ok b => ({ σ with log := σ.log ++ [url] }, Except.ok b)
  | Except.error e => ({ σ with log := σ.log ++ [url] }, Except.error e)

/-- The pinned manifest URL (`MINECRAFT_1_20_4_META_URL`, main.rs:10). -/
def MINECRAFT_1_20_4_META_URL : String :=
  "https://piston-meta.mojang.com/v1/packages/efcc510e525cef0e859b5435f82b6e3193214efc/1.20.4.json"

/-- The asset resource URL built in `download_assets` (main.rs:93-96). -/
def resourceUrl (bucket hash : String) : String :=
  "https://resources.download.minecraft.net/" ++ bucket ++ "/" ++ hash

/-- Rust's `&hash[0..2]` (main.rs:79): the first two bytes of the UTF-8
encoding, provided the string is at least two bytes long and byte index
2 falls on a character boundary; otherwise the slice panics. -/
def rustSliceTwo (h : String) : Except String String :=
  match h.data with
  | [] => Except.error "byte index 2 is out of bounds"
  | c :: rest =>
    if c.utf8Size = 2 then Except.ok (String.mk [c])
    else if c.utf8Size = 1 then
      match rest with
      | [] => Except.error "byte index 2 is out of bounds"
      | d :: _ =>
        if d.utf8Size = 1 then Except.ok (String.mk [c, d])
        else Except.error "byte index 2 is not a char boundary"
    else Except.error "byte index 2 is not a char boundary"

/-- A download task: source URL and destination path (one per spawned
asset fetch in `download_assets`). -/
structure DLTask where
  url : String
  dest : String
deriving DecidableEq

/-- `library_entry["downloads"]["artifact"]["path"].as_str()`
(main.rs:121-123). -/
def libraryPathOf (e : Json) : Option String :=
  (((e.index "downloads").index "artifact").index "path").asStr

/-- `library_entry["downloads"]["artifact"]["url"].as_str()`
(main.rs:137-139). -/
def libraryUrlOf (e : Json) : Option String :=
  (((e.index "downloads").index "artifact").index "url").asStr

/-- The platform-rule skip test of `download_libraries` (main.rs:125-129):
`rules = entry.get("rules").map_or(None, |a| a.get(0))`, and the entry
is skipped iff that first rule exists and its `os.name` is not the
string "windows". -/
def librarySkipped (e : Json) : Bool :=
  match (e.getKey "rules").bind Json.get0 with
  | some r => !(Json.eqStr ((r.index "os").index "name") "windows")
  | none => false

/-- `download_libraries` (main.rs:115-156): sequentially, for each entry,
extract the artifact path (panicking if absent), skip by the first
platform rule, skip if the artifact file exists, otherwise extract the
URL, GET it and write the body.  A panic (any `unwrap` failure,
including a failed GET) aborts the whole loop. -/
def downloadLibraries (net : Net) (σ : St) (librariesDirectory : String) :
    List Json → St × Except String Unit
| [] => (σ, Except.ok ())
| e :: rest =>
  match libraryPathOf e with
  | none => (σ, Except.error "path unwrap panicked")
  | some path =>
    if librarySkipped e then downloadLibraries net σ librariesDirectory rest
    else
      let libPath := librariesDirectory ++ "/" ++ path
      if Fs.hasPath σ.fs libPath then downloadLibraries net σ librariesDirectory rest
      else
        match libraryUrlOf e with
        | none => (σ, Except.error "url unwrap panicked")
        | some url =>
          match netFetch net σ url with
          | (σ', Except.error e') => (σ', Except.error e')
          | (σ', Except.ok data) =>
            downloadLibraries net { σ' with fs := Fs.write σ'.fs libPath data }
              librariesDirectory rest

/-- `download_client` (main.rs:158-179): skip when `client.jar` exists,
otherwise GET the client URL and write the body. -/
def downloadClient (net : Net) (σ : St) (instanceDirectory : String)
    (clientJarUrl : String) : St × Except String Unit :=
  let clientJar := instanceDirectory ++ "/client.jar"
  if Fs.hasPath σ.fs clientJar then (σ, Except.ok ())
  else
    match netFetch net σ clientJarUrl with
    | (σ', Except.error e) => (σ', Except.error e)
    | (σ', Except.ok data) => ({ σ' with fs := Fs.write σ'.fs clientJar data }, Except.ok ())

/-- `get_minecraft_meta` (main.rs:181-203): if `<cwd>/1.20.4.json`
exists, parse and return it with no network call; otherwise GET the
pinned URL, parse the body, write the parsed document's serialization
(`json.to_string()`) to that path, and return the parsed document. -/
def getMinecraftMeta (net : Net) (σ : St) (currentDirectory : String) :
    St × Except String Json :=
  let minecraftMetaPath := currentDirectory ++ "/1.20.4.json"
  match Fs.lookup σ.fs minecraftMetaPath with
  | some contents =>
    match Json.parse contents with
    | some j => (σ, Except.ok j)
    | none => (σ, Except.error "cached meta parse panicked")
  | none =>
    match netFetch net σ MINECRAFT_1_20_4_META_URL with
    | (σ', Except.error e) => (σ', Except.error e)
    | (σ', Except.ok body) =>
      match Json.parse body with
      | none => (σ', Except.error "meta json parse panicked")
      | some j =>
        ({ σ' with fs := Fs.write σ'.fs minecraftMetaPath j.toString }, Except.ok j)

/-- The serialized default `LauncherConfig` written by `create_config`
(main.rs:205-212): `toml::to_string` of `{ username: "Username" }`. -/
def defaultConfigToml : String := "username = \"Username\"\n"

/-- `create_config` (main.rs:205-212): write the default config unless
the file already exists. -/
def createConfig (σ : St) (instanceDirectory : String) : St :=
  let configPath := instanceDirectory ++ "/LauncherConfig.toml"
  if Fs.hasPath σ.fs configPath then σ
  else { σ with fs := Fs.write σ.fs configPath defaultConfigToml }

/-- The per-entry step of the spawn loop of `download_assets`
(main.rs:77-110), as an optional task: extract the hash (`none` here
standing for shapes the surrounding fold turns into a panic), slice
its two-byte bucket, and create a task exactly when the object path is
absent. -/
def taskOfEntry (fs : Fs) (objectsPath : String) (kv : String × Json) : Option DLTask :=
  match (kv.2.index "hash").asStr with
  | none => none
  | some hash =>
    match rustSliceTwo hash with
    | Except.error _ => none
    | Except.ok bucket =>
      let assetPath := objectsPath ++ "/" ++ bucket ++ "/" ++ hash
      if Fs.hasPath fs assetPath then none
      else some ⟨resourceUrl bucket hash, assetPath⟩

/-- The spawn loop of `download_assets` (main.rs:77-110): iterate the
(key-sorted) object entries, panic on a missing hash or an unsliceable
one, and collect one task per entry whose object path is absent.  The
existence checks all read the pre-loop filesystem: the loop body
contains no await point, so in the canonical execution no spawned task
has run (and hence written its file) while tasks are still being
created. -/
def assetTasks (fs : Fs) (objectsPath : String) :
    List (String × Json) → Except String (List DLTask)
| [] => Except.ok []
| (_, v) :: rest =>
  match (v.index "hash").asStr with
  | none => Except.error "hash unwrap panicked"
  | some hash =>
    match rustSliceTwo hash with
    | Except.error e => Except.error e
    | Except.ok bucket =>
      let assetPath := objectsPath ++ "/" ++ bucket ++ "/" ++ hash
      match assetTasks fs objectsPath rest with
      | Except.error e => Except.error e
      | Except.ok ts =>
        Except.ok
          (if Fs.hasPath fs assetPath then ts
           else ⟨resourceUrl bucket hash, assetPath⟩ :: ts)

/-- Execution of the spawned asset tasks (main.rs:89-108, joined at
main.rs:112): each task GETs its URL and writes the body to its
destination; a failed GET panics that task only — `join_all` discards
the join results, so the failure is recorded nowhere and the remaining
tasks still run. -/
def runTasks (net : Net) (σ : St) : List DLTask → St
| [] => σ
| t :: ts =>
  match netFetch net σ t.url with
  | (σ', Except.ok data) => runTasks net { σ' with fs := Fs.write σ'.fs t.dest data } ts
  | (σ', Except.error _) => runTasks net σ' ts

/-- `download_assets` (main.rs:48-113): GET the asset index URL
unconditionally, parse the body, write the parsed document's
serialization to `<assets>/indexes/<id>.json`, read the `objects` map,
create one task per entry whose object path is absent, and run the
tasks under the semaphore.  Returns the created task list alongside
the final state; a panic before the spawn loop aborts the function. -/
def downloadAssets (net : Net) (σ : St) (assetsDirectory : String)
    (assetIndexId assetIndexUrl : String) : St × Except String (List DLTask) :=
  match netFetch net σ assetIndexUrl with
  | (σ', Except.error e) => (σ', Except.error e)
  | (σ', Except.ok body) =>
    match Json.parse body with
    | none => (σ', Except.error "asset index json parse panicked")
    | some assetIndexJson =>
      let indexPath := assetsDirectory ++ "/indexes/" ++ assetIndexId ++ ".json"
      let σ2 := { σ' with fs := Fs.write σ'.fs indexPath assetIndexJson.toString }
      match (assetIndexJson.index "objects").asObject with
      | none => (σ2, Except.error "objects as_object unwrap panicked")
      | some assetObjects =>
        match assetTasks σ2.fs (assetsDirectory ++ "/objects") assetObjects with
        | Except.error e => (σ2, Except.error e)
        | Except.ok ts => (runTasks net σ2 ts, Except.ok ts)

/-- Stand-in contents for the launcher executable copied by
`create_profile` (main.rs:247-248); the copy's bytes are opaque to the
pipeline. -/
def launcherExeBytes : String := "launcher-executable-bytes"

/-- `create_profile` (main.rs:214-249): resolve the manifest, extract
the client URL, library list and asset-index URL (panicking when
absent), write the default config, then download the client, the
libraries, and finally the assets (index id "12"), and copy the
running executable to `instance/start.exe`. -/
def createProfile (net : Net) (σ : St) (currentDirectory : String) :
    St × Except String Unit :=
  match getMinecraftMeta net σ currentDirectory with
  | (σ1, Except.error e) => (σ1, Except.error e)
  | (σ1, Except.ok minecraftMeta) =>
    match (((minecraftMeta.index "downloads").index "client").index "url").asStr with
    | none => (σ1, Except.error "client url unwrap panicked")
    | some clientJarUrl =>
      match (minecraftMeta.index "libraries").asArray with
      | none => (σ1, Except.error "libraries unwrap panicked")
      | some libraryEntries =>
        match ((minecraftMeta.index "assetIndex").index "url").asStr with
        | none => (σ1, Except.error "assetIndex url unwrap panicked")
        | some assetsUrl =>
          let σ2 := createConfig σ1 "instance"
          match downloadClient net σ2 "instance" clientJarUrl with
          | (σ3, Except.error e) => (σ3, Except.error e)
          | (σ3, Except.ok _) =>
            match downloadLibraries net σ3 "instance/libraries" libraryEntries with
            | (σ4, Except.error e) => (σ4, Except.error e)
            | (σ4, Except.ok _) =>
              match downloadAssets net σ4 "instance/assets" "12" assetsUrl with
              | (σ5, Except.error e) => (σ5, Except.error e)
              | (σ5, Except.ok _) =>
                ({ σ5 with fs := Fs.write σ5.fs "instance/start.exe" launcherExeBytes },
                 Except.ok ())

deriving instance DecidableEq for Except

/-!
### Bounded fan-out of `download_assets`

The spawn body of `download_assets` (main.rs:89-108) is, per task:
acquire a semaphore permit (main.rs:90), issue the GET and await the
body (the in-flight section), write the file, and drop the permit
(main.rs:106).  The interleaving of the spawned tasks is modelled by a
transition system: each task is `waiting` (blocked in `acquire`),
`inFlight` (holding a permit, fetch outstanding), or `done` (permit
returned).  `acquire` requires a free permit, so tasks beyond the limit
wait for a slot.
-/

/-- The phase of one spawned asset task. -/
inductive TaskPhase where
| waiting : TaskPhase
| inFlight : TaskPhase
| done : TaskPhase
deriving DecidableEq

/-- Permits remaining in the semaphore plus the phase of every spawned
task. -/
structure PoolState where
  permits : Nat
  tasks : List TaskPhase
deriving DecidableEq

/-- The semaphore's permit count, `Semaphore::new(5)` (main.rs:73). -/
def semaphorePermits : Nat := 5

/-- Initial pool state: all permits free, every spawned task waiting in
`acquire`. -/
def initPool (ts : List DLTask) : PoolState :=
  ⟨semaphorePermits, ts.map fun _ => TaskPhase.waiting⟩

/-- One scheduler step: a waiting task acquires a permit (possible only
when one is free) and becomes in-flight, or an in-flight task finishes
its fetch-and-write and returns its permit. -/
inductive PoolStep : PoolState → PoolState → Prop where
| acquire (s : PoolState) (i : Nat) (hw : s.tasks.get? i = some TaskPhase.waiting)
    (hp : 0 < s.permits) :
    PoolStep s ⟨s.permits - 1, s.tasks.set i TaskPhase.inFlight⟩
| finish (s : PoolState) (i : Nat) (hf : s.tasks.get? i = some TaskPhase.inFlight) :
    PoolStep s ⟨s.permits + 1, s.tasks.set i TaskPhase.done⟩

/-- States reachable from the initial pool state of a task list. -/
inductive PoolReachable (ts : List DLTask) : PoolState → Prop where
| init : PoolReachable ts (initPool ts)
| step {s s' : PoolState} : PoolReachable ts s → PoolStep s s' → PoolReachable ts s'

/-- Number of tasks currently in-flight. -/
def countInFlight : List TaskPhase → Nat
| [] => 0
| TaskPhase.inFlight :: rest => countInFlight rest + 1
| _ :: rest => countInFlight rest

/-- Simultaneously in-flight fetches of a pool state. -/
def inFlightCount (s : PoolState) : Nat := countInFlight s.tasks

/-- Contribution of one task phase to the in-flight count. -/
def phaseWeight (p : TaskPhase) : Nat :=
  match p with
  | TaskPhase.inFlight => 1
  | _ => 0

/-!
### Concrete instances used by witnesses and counterexamples
-/

/-- Library entry with artifact path `a.jar`, URL `uA`, and no rule
list. -/
def libEntryA : Json :=
  Json.obj [("downloads",
    Json.obj [("artifact",
      Json.obj [("path", Json.str "a.jar"), ("url", Json.str "uA")])])]

/-- Library entry with artifact path `b.jar`, URL `uB`, and no rule
list. -/
def libEntryB : Json :=
  Json.obj [("downloads",
    Json.obj [("artifact",
      Json.obj [("path", Json.str "b.jar"), ("url", Json.str "uB")])])]

/-- Library entry whose first rule's OS name is `windows`. -/
def libEntryWin : Json :=
  Json.obj [("downloads",
    Json.obj [("artifact",
      Json.obj [("path", Json.str "w.jar"), ("url", Json.str "uW")])]),
    ("rules", Json.arr [Json.obj [("os", Json.obj [("name", Json.str "windows")])],
                        Json.obj [("os", Json.obj [("name", Json.str "osx")])]])]

/-- Library entry whose first rule's OS name is `osx`. -/
def libEntryOsx : Json :=
  Json.obj [("downloads",
    Json.obj [("artifact",
      Json.obj [("path", Json.str "m.jar"), ("url", Json.str "uM")])]),
    ("rules", Json.arr [Json.obj [("os", Json.obj [("name", Json.str "osx")])],
                        Json.obj [("os", Json.obj [("name", Json.str "windows")])]])]

/-- Network where `uB` succeeds and every other URL fails. -/
def netC3 : Net := fun u =>
  if u = "uB" then Except.ok "bbytes" else Except.error "server error"

/-- Network answering every URL with the two-byte body consisting of an
opening brace, a space, and a closing brace. -/
def netC5 : Net := fun _ => Except.ok "\x7b \x7d"

/-- Network where every URL fails at the transport level. -/
def netC6 : Net := fun _ => Except.error "boom"

/-- Network serving an asset index in which the two distinct names `x`
and `y` both map to the hash `aabb`. -/
def netC7 : Net := fun u =>
  if u = "uI7" then
    Except.ok "\x7b\"objects\":\x7b\"x\":\x7b\"hash\":\"aabb\"\x7d,\"y\":\x7b\"hash\":\"aabb\"\x7d\x7d\x7d"
  else Except.ok "data"

/-- Network serving an asset index whose body carries a stray space, so
that it is not in compact serialized form. -/
def netC8 : Net := fun _ => Except.ok "\x7b\"objects\":\x7b\x7d \x7d"

/-- Network serving a complete tiny manifest (client URL `uC`, one
library with URL `uL`, asset index URL `uI`) and each referenced
document. -/
def netC9 : Net := fun u =>
  if u = MINECRAFT_1_20_4_META_URL then
    Except.ok "\x7b\"assetIndex\":\x7b\"url\":\"uI\"\x7d,\"downloads\":\x7b\"client\":\x7b\"url\":\"uC\"\x7d\x7d,\"libraries\":[\x7b\"downloads\":\x7b\"artifact\":\x7b\"path\":\"a.jar\",\"url\":\"uL\"\x7d\x7d\x7d]\x7d"
  else if u = "uC" then Except.ok "cbytes"
  else if u = "uL" then Except.ok "lbytes"
  else if u = "uI" then Except.ok "\x7b\"objects\":\x7b\x7d\x7d"
  else Except.error "down"

/-- Network serving an asset index holding the one-byte hash `a`. -/
def netC10 : Net := fun _ =>
  Except.ok "\x7b\"objects\":\x7b\"z\":\x7b\"hash\":\"a\"\x7d\x7d\x7d"

/-- Network for the second-run scenario: only the asset index URL `uI`
answers; every other URL fails, so any further fetch would surface as
an error. -/
def netC1 : Net := fun u =>
  if u = "uI" then Except.ok "\x7b\"objects\":\x7b\"x\":\x7b\"hash\":\"aabb\"\x7d\x7d\x7d"
  else Except.error "down"

/-- A fully populated store for the second-run scenario: cached manifest,
config, client jar, the one library artifact, and the one asset
object. -/
def fsC1 : Fs :=
  [("/c/1.20.4.json",
    "\x7b\"assetIndex\":\x7b\"url\":\"uI\"\x7d,\"downloads\":\x7b\"client\":\x7b\"url\":\"uC\"\x7d\x7d,\"libraries\":[\x7b\"downloads\":\x7b\"artifact\":\x7b\"path\":\"a.jar\",\"url\":\"uL\"\x7d\x7d\x7d]\x7d"),
   ("instance/LauncherConfig.toml", "username = \"Username\"\n"),
   ("instance/client.jar", "cbytes"),
   ("instance/libraries/a.jar", "lbytes"),
   ("instance/assets/objects/aa/aabb", "adata")]

/-- Seven download tasks, to exercise the pool bound with more tasks
than permits. -/
def sevenTasks : List DLTask :=
  [⟨"u1", "d1"⟩, ⟨"u2", "d2"⟩, ⟨"u3", "d3"⟩, ⟨"u4", "d4"⟩,
   ⟨"u5", "d5"⟩, ⟨"u6", "d6"⟩, ⟨"u7", "d7"⟩]

/-!
### Helper lemmas
-/

theorem Json.eqStr_iff (j : Json) (s : String) :
    Json.eqStr j s = true ↔ j = Json.str s := by
  cases j <;> simp [Json.eqStr]

theorem Fs.lookup_write_self (fs : Fs) (p d : String) :
    Fs.lookup (Fs.write fs p d) p = some d := by
  induction fs with
  | nil => simp [Fs.write, Fs.lookup]
  | cons hd tl ih =>
    obtain ⟨q, e⟩ := hd
    by_cases h : q = p <;> simp [Fs.write, Fs.lookup, h, ih]

theorem Fs.lookup_write_ne (fs : Fs) (p q d : String) (h : q ≠ p) :
    Fs.lookup (Fs.write fs q d) p = Fs.lookup fs p := by
  induction fs with
  | nil => simp [Fs.write, Fs.lookup, h]
  | cons hd tl ih =>
    obtain ⟨q', e⟩ := hd
    by_cases h' : q' = q
    · subst h'; simp [Fs.write, Fs.lookup, h, ih]
    · by_cases h'' : q' = p <;> simp [Fs.write, Fs.lookup, h, Ne.symm h, h', h'', ih]

theorem Fs.hasPath_write_mono (fs : Fs) (p q d : String)
    (h : Fs.hasPath fs p = true) : Fs.hasPath (Fs.write fs q d) p = true := by
  by_cases hqp : q = p
  · subst hqp; simp [Fs.hasPath, Fs.lookup_write_self]
  · simpa [Fs.hasPath, Fs.lookup_write_ne fs p q d hqp] using h

theorem runTasks_log (net : Net) (σ : St) (ts : List DLTask) :
    (runTasks net σ ts).log = σ.log ++ ts.map DLTask.url := by
  induction ts generalizing σ with
  | nil => simp [runTasks]
  | cons t ts ih =>
    cases h : net t.url <;> simp [runTasks, netFetch, h, ih]

theorem runTasks_preserve (net : Net) (σ : St) (ts : List DLTask) (p : String)
    (h : ∀ t ∈ ts, t.dest ≠ p) :
    Fs.lookup (runTasks net σ ts).fs p = Fs.lookup σ.fs p := by
  induction ts generalizing σ with
  | nil => simp [runTasks]
  | cons t ts ih =>
    have hd : t.dest ≠ p := h t (List.mem_cons_self t ts)
    have hrest : ∀ t' ∈ ts, t'.dest ≠ p := fun t' ht' => h t' (List.mem_cons_of_mem t ht')
    cases hn : net t.url with
    | ok data =>
      simp only [runTasks, netFetch, hn]
      rw [ih _ hrest]
      exact Fs.lookup_write_ne _ _ _ _ hd
    | error e =>
      simp only [runTasks, netFetch, hn]
      exact ih _ hrest

theorem assetTasks_absent (fs : Fs) (P : String) (objects : List (String × Json))
    (ts : List DLTask) (h : assetTasks fs P objects = Except.ok ts) :
    ∀ t ∈ ts, Fs.hasPath fs t.dest = false := by
  induction objects generalizing ts with
  | nil =>
    simp only [assetTasks, Except.ok.injEq] at h
    subst h; intro t ht; cases ht
  | cons kv rest ih =>
    obtain ⟨k, v⟩ := kv
    cases e1 : (v.index "hash").asStr with
    | none => simp only [assetTasks, e1] at h; exact Except.noConfusion h
    | some hsh =>
      cases e2 : rustSliceTwo hsh with
      | error e => simp only [assetTasks, e1, e2] at h; exact Except.noConfusion h
      | ok bucket =>
        cases e3 : assetTasks fs P rest with
        | error e => simp only [assetTasks, e1, e2, e3] at h; exact Except.noConfusion h
        | ok ts' =>
          simp only [assetTasks, e1, e2, e3, Except.ok.injEq] at h
          by_cases e4 : Fs.hasPath fs (P ++ "/" ++ bucket ++ "/" ++ hsh) = true
          · rw [if_pos e4] at h; subst h; exact ih ts' e3
          · rw [if_neg e4] at h
            subst h
            intro t ht
            rcases List.mem_cons.1 ht with h5 | h5
            · subst h5; simpa using e4
            · exact ih ts' e3 t h5

theorem assetTasks_mem (fs : Fs) (P : String) (objects : List (String × Json))
    (ts : List DLTask) (h : assetTasks fs P objects = Except.ok ts)
    (t : DLTask) (ht : t ∈ ts) :
    ∃ k v hsh bucket, (k, v) ∈ objects ∧ (v.index "hash").asStr = some hsh ∧
      rustSliceTwo hsh = Except.ok bucket ∧
      t = ⟨resourceUrl bucket hsh, P ++ "/" ++ bucket ++ "/" ++ hsh⟩ := by
  induction objects generalizing ts with
  | nil =>
    simp only [assetTasks, Except.ok.injEq] at h
    subst h; cases ht
  | cons kv rest ih =>
    obtain ⟨k, v⟩ := kv
    cases e1 : (v.index "hash").asStr with
    | none => simp only [assetTasks, e1] at h; exact Except.noConfusion h
    | some hsh =>
      cases e2 : rustSliceTwo hsh with
      | error e => simp only [assetTasks, e1, e2] at h; exact Except.noConfusion h
      | ok bucket =>
        cases e3 : assetTasks fs P rest with
        | error e => simp only [assetTasks, e1, e2, e3] at h; exact Except.noConfusion h
        | ok ts' =>
          simp only [assetTasks, e1, e2, e3, Except.ok.injEq] at h
          by_cases e4 : Fs.hasPath fs (P ++ "/" ++ bucket ++ "/" ++ hsh) = true
          · rw [if_pos e4] at h
            subst h
            obtain ⟨k', v', hsh', bucket', hm, he, hs, hteq⟩ := ih ts' e3 ht
            exact ⟨k', v', hsh', bucket', List.mem_cons_of_mem _ hm, he, hs, hteq⟩
          · rw [if_neg e4] at h
            subst h
            rcases List.mem_cons.1 ht with h5 | h5
            · exact ⟨k, v, hsh, bucket, List.mem_cons_self _ _, e1, e2, h5⟩
            · obtain ⟨k', v', hsh', bucket', hm, he, hs, hteq⟩ := ih ts' e3 h5
              exact ⟨k', v', hsh', bucket', List.mem_cons_of_mem _ hm, he, hs, hteq⟩

theorem assetTasks_nil_of_present (fs : Fs) (P : String) (objects : List (String × Json))
    (h : ∀ kv ∈ objects, ∃ hsh bucket, ((kv.2).index "hash").asStr = some hsh ∧
      rustSliceTwo hsh = Except.ok bucket ∧
      Fs.hasPath fs (P ++ "/" ++ bucket ++ "/" ++ hsh) = true) :
    assetTasks fs P objects = Except.ok [] := by
  induction objects with
  | nil => simp [assetTasks]
  | cons kv rest ih =>
    obtain ⟨k, v⟩ := kv
    obtain ⟨hsh, bucket, he, hs, hp⟩ := h (k, v) (List.mem_cons_self _ _)
    simp only [assetTasks, he, hs]
    rw [ih fun kv' hkv' => h kv' (List.mem_cons_of_mem _ hkv')]
    simp [hp]

theorem assetTasks_filterMap (fs : Fs) (P : String) (objects : List (String × Json))
    (h : ∀ kv ∈ objects, ∃ hsh bucket, ((kv.2).index "hash").asStr = some hsh ∧
      rustSliceTwo hsh = Except.ok bucket) :
    assetTasks fs P objects = Except.ok (objects.filterMap (taskOfEntry fs P)) := by
  induction objects with
  | nil => simp [assetTasks]
  | cons kv rest ih =>
    obtain ⟨k, v⟩ := kv
    obtain ⟨hsh, bucket, he, hs⟩ := h (k, v) (List.mem_cons_self _ _)
    simp only [assetTasks, he, hs, List.filterMap_cons]
    rw [ih fun kv' hkv' => h kv' (List.mem_cons_of_mem _ hkv')]
    by_cases hp : Fs.hasPath fs (P ++ "/" ++ bucket ++ "/" ++ hsh) = true
    · simp [taskOfEntry, he, hs, hp]
    · simp only [Bool.not_eq_true] at hp
      simp [taskOfEntry, he, hs, hp]

theorem assetTasks_error_of_mem (fs : Fs) (P : String) (objects : List (String × Json))
    (k : String) (v : Json) (hsh : String)
    (hm : (k, v) ∈ objects) (he : (v.index "hash").asStr = some hsh)
    (hbad : ∀ b, rustSliceTwo hsh ≠ Except.ok b) :
    ∃ e, assetTasks fs P objects = Except.error e := by
  induction objects with
  | nil => cases hm
  | cons kv rest ih =>
    obtain ⟨k', v'⟩ := kv
    rcases List.mem_cons.1 hm with h1 | h1
    · have hv : v' = v := congrArg Prod.snd h1.symm
      subst hv
      cases e2 : rustSliceTwo hsh with
      | error e => exact ⟨e, by simp only [assetTasks, he, e2]⟩
      | ok bucket => exact absurd e2 (hbad bucket)
    · cases e1 : (v'.index "hash").asStr with
      | none => exact ⟨"hash unwrap panicked", by simp only [assetTasks, e1]⟩
      | some hsh' =>
        cases e2 : rustSliceTwo hsh' with
        | error e => exact ⟨e, by simp only [assetTasks, e1, e2]⟩
        | ok bucket =>
          obtain ⟨e, he'⟩ := ih h1
          exact ⟨e, by simp only [assetTasks, e1, e2, he']⟩

theorem downloadAssets_log (net : Net) (σ : St) (dir id aurl : String) :
    ∃ l, (downloadAssets net σ dir id aurl).1.log = σ.log ++ aurl :: l := by
  cases hn : net aurl with
  | error e => exact ⟨[], by simp [downloadAssets, netFetch, hn]⟩
  | ok body =>
    cases hp : Json.parse body with
    | none => exact ⟨[], by simp [downloadAssets, netFetch, hn, hp]⟩
    | some idx =>
      cases ho : (idx.index "objects").asObject with
      | none => exact ⟨[], by simp [downloadAssets, netFetch, hn, hp, ho]⟩
      | some objects =>
        cases ht : assetTasks
            (Fs.write { σ with log := σ.log ++ [aurl] }.fs
              (dir ++ "/indexes/" ++ id ++ ".json") idx.toString)
            (dir ++ "/objects") objects with
        | error e => exact ⟨[], by simp [downloadAssets, netFetch, hn, hp, ho, ht]⟩
        | ok ts =>
          refine ⟨ts.map DLTask.url, ?_⟩
          simp [downloadAssets, netFetch, hn, hp, ho, ht, runTasks_log]

theorem downloadClient_present (net : Net) (σ : St) (dir u : String)
    (h : Fs.hasPath σ.fs (dir ++ "/client.jar") = true) :
    downloadClient net σ dir u = (σ, Except.ok ()) := by
  simp [downloadClient, h]

theorem downloadLibraries_skip_head (net : Net) (σ : St) (dir : String)
    (e : Json) (rest : List Json) (p : String)
    (hpath : libraryPathOf e = some p)
    (hpres : Fs.hasPath σ.fs (dir ++ "/" ++ p) = true) :
    downloadLibraries net σ dir (e :: rest) = downloadLibraries net σ dir rest := by
  by_cases hskip : librarySkipped e = true
  · simp [downloadLibraries, hpath, hskip]
  · simp only [Bool.not_eq_true] at hskip
    simp [downloadLibraries, hpath, hskip, hpres]

theorem downloadLibraries_present (net : Net) (σ : St) (dir : String)
    (entries : List Json)
    (h : ∀ e ∈ entries, ∃ p, libraryPathOf e = some p ∧
      (librarySkipped e = true ∨ Fs.hasPath σ.fs (dir ++ "/" ++ p) = true)) :
    downloadLibraries net σ dir entries = (σ, Except.ok ()) := by
  induction entries with
  | nil => simp [downloadLibraries]
  | cons e rest ih =>
    obtain ⟨p, hpath, hcase⟩ := h e (List.mem_cons_self _ _)
    have hrest := ih fun e' he' => h e' (List.mem_cons_of_mem _ he')
    rcases hcase with hskip | hpres
    · simp [downloadLibraries, hpath, hskip, hrest]
    · rw [downloadLibraries_skip_head net σ dir e rest p hpath hpres, hrest]

theorem downloadLibraries_log_mono (net : Net) (σ : St) (dir : String)
    (entries : List Json) :
    ∃ l, (downloadLibraries net σ dir entries).1.log = σ.log ++ l := by
  induction entries generalizing σ with
  | nil => exact ⟨[], by simp [downloadLibraries]⟩
  | cons e rest ih =>
    cases hpath : libraryPathOf e with
    | none => exact ⟨[], by simp [downloadLibraries, hpath]⟩
    | some p =>
      by_cases hskip : librarySkipped e = true
      · obtain ⟨l, hl⟩ := ih σ
        exact ⟨l, by simpa [downloadLibraries, hpath, hskip] using hl⟩
      · simp only [Bool.not_eq_true] at hskip
        by_cases hpres : Fs.hasPath σ.fs (dir ++ "/" ++ p) = true
        · obtain ⟨l, hl⟩ := ih σ
          exact ⟨l, by simpa [downloadLibraries, hpath, hskip, hpres] using hl⟩
        · simp only [Bool.not_eq_true] at hpres
          cases hurl : libraryUrlOf e with
          | none => exact ⟨[], by simp [downloadLibraries, hpath, hskip, hpres, hurl]⟩
          | some u =>
            cases hn : net u with
            | error msg =>
              exact ⟨[u], by simp [downloadLibraries, hpath, hskip, hpres, hurl,
                netFetch, hn]⟩
            | ok data =>
              obtain ⟨l, hl⟩ := ih ⟨Fs.write σ.fs (dir ++ "/" ++ p) data, σ.log ++ [u]⟩
              refine ⟨u :: l, ?_⟩
              simp only [downloadLibraries, hpath, hskip, hpres, hurl, netFetch, hn,
                Bool.false_eq_true, if_false]
              simpa using hl

theorem rustSliceTwo_shape (h pre : String) (hs : rustSliceTwo h = Except.ok pre) :
    ∃ t, h.data = pre.data ++ t ∧
      ((∃ c, pre.data = [c] ∧ c.utf8Size = 2) ∨
       (∃ c d, pre.data = [c, d] ∧ c.utf8Size = 1 ∧ d.utf8Size = 1)) := by
  cases hd : h.data with
  | nil => simp only [rustSliceTwo, hd] at hs; exact Except.noConfusion hs
  | cons c rest =>
    simp only [rustSliceTwo, hd] at hs
    by_cases h2 : c.utf8Size = 2
    · rw [if_pos h2] at hs
      simp only [Except.ok.injEq] at hs
      subst hs
      exact ⟨rest, by simp, Or.inl ⟨c, rfl, h2⟩⟩
    · rw [if_neg h2] at hs
      by_cases h1 : c.utf8Size = 1
      · rw [if_pos h1] at hs
        cases rest with
        | nil => exact Except.noConfusion hs
        | cons d rest' =>
          have hs' : (if d.utf8Size = 1 then Except.ok (String.mk [c, d])
              else Except.error "byte index 2 is not a char boundary") = Except.ok pre := hs
          by_cases hd1 : d.utf8Size = 1
          · rw [if_pos hd1] at hs'
            simp only [Except.ok.injEq] at hs'
            subst hs'
            exact ⟨rest', by simp, Or.inr ⟨c, d, rfl, h1, hd1⟩⟩
          · rw [if_neg hd1] at hs'; exact Except.noConfusion hs'
      · rw [if_neg h1] at hs; exact Except.noConfusion hs

theorem resourceUrl_inj (h₁ h₂ pre₁ pre₂ : String)
    (hs₁ : rustSliceTwo h₁ = Except.ok pre₁) (hs₂ : rustSliceTwo h₂ = Except.ok pre₂)
    (heq : resourceUrl pre₁ h₁ = resourceUrl pre₂ h₂) : h₁ = h₂ ∧ pre₁ = pre₂ := by
  obtain ⟨t₁, _, sh₁⟩ := rustSliceTwo_shape h₁ pre₁ hs₁
  obtain ⟨t₂, _, sh₂⟩ := rustSliceTwo_shape h₂ pre₂ hs₂
  have e : pre₁.data ++ '/' :: h₁.data = pre₂.data ++ '/' :: h₂.data := by
    have h' := congrArg String.data heq
    simp only [resourceUrl, String.data_append, List.append_assoc] at h'
    simpa using List.append_cancel_left h'
  rcases sh₁ with ⟨c, hc, hc2⟩ | ⟨c, d, hcd, hc1, hd1⟩ <;>
    rcases sh₂ with ⟨c', hc', hc2'⟩ | ⟨c', d', hcd', hc1', hd1'⟩
  · rw [hc, hc'] at e
    simp only [List.cons_append, List.nil_append, List.cons.injEq] at e
    exact ⟨String.ext e.2.2, String.ext (by rw [hc, hc', e.1])⟩
  · rw [hc, hcd'] at e
    simp only [List.cons_append, List.nil_append, List.cons.injEq] at e
    exact absurd (e.1 ▸ hc2) (by rw [hc1']; decide)
  · rw [hcd, hc'] at e
    simp only [List.cons_append, List.nil_append, List.cons.injEq] at e
    exact absurd (e.1 ▸ hc1) (by rw [hc2']; decide)
  · rw [hcd, hcd'] at e
    simp only [List.cons_append, List.nil_append, List.cons.injEq] at e
    exact ⟨String.ext e.2.2.2, String.ext (by rw [hcd, hcd', e.1, e.2.1])⟩

theorem countInFlight_cons (x : TaskPhase) (l : List TaskPhase) :
    countInFlight (x :: l) = countInFlight l + phaseWeight x := by
  cases x <;> simp [countInFlight, phaseWeight]

theorem countInFlight_set (l : List TaskPhase) (i : Nat) (a b : TaskPhase)
    (h : l.get? i = some b) :
    countInFlight (l.set i a) + phaseWeight b = countInFlight l + phaseWeight a := by
  induction l generalizing i with
  | nil => simp [List.get?] at h
  | cons hd tl ih =>
    cases i with
    | zero =>
      simp only [List.get?] at h
      obtain rfl : hd = b := by injection h
      simp only [List.set, countInFlight_cons]
      omega
    | succ n =>
      simp only [List.get?] at h
      have := ih n h
      simp only [List.set, countInFlight_cons]
      omega

theorem countInFlight_waiting (ts : List DLTask) :
    countInFlight (ts.map fun _ => TaskPhase.waiting) = 0 := by
  induction ts with
  | nil => simp [countInFlight]
  | cons t ts ih => simpa [countInFlight] using ih

theorem pool_invariant (ts : List DLTask) (s : PoolState)
    (h : PoolReachable ts s) : inFlightCount s + s.permits = semaphorePermits := by
  induction h with
  | init =>
    have h0 := countInFlight_waiting ts
    simp only [initPool, inFlightCount] at h0 ⊢
    omega
  | step hprev hstep ih =>
    cases hstep with
    | acquire i hw hp =>
      have hcount := countInFlight_set _ i TaskPhase.inFlight TaskPhase.waiting hw
      simp only [inFlightCount, phaseWeight] at hcount ih ⊢
      omega
    | finish i hf =>
      have hcount := countInFlight_set _ i TaskPhase.done TaskPhase.inFlight hf
      simp only [inFlightCount, phaseWeight] at hcount ih ⊢
      omega

/-!
### Claim theorems
-/

/-- Claim C4: Library platform filter.  An entry with no rule list is
never skipped by `download_libraries` (hence downloaded when absent);
an entry whose rule list is a nonempty array is included iff its first
rule's `os.name` is the string `windows` (the hardcoded target
platform), with the iff independent of every rule after the first; a
skipped entry contributes nothing to the run; and a non-skipped absent
entry is fetched and written. -/
theorem spec_library_filter :
    (∀ e : Json, e.getKey "rules" = none → librarySkipped e = false) ∧
    (∀ (e r : Json) (rest : List Json),
      e.getKey "rules" = some (Json.arr (r :: rest)) →
      (librarySkipped e = false ↔ (r.index "os").index "name" = Json.str "windows")) ∧
    (∀ (net : Net) (σ : St) (dir : String) (e : Json) (rest : List Json) (p : String),
      libraryPathOf e = some p → librarySkipped e = true →
      downloadLibraries net σ dir (e :: rest) = downloadLibraries net σ dir rest) ∧
    (∀ (net : Net) (σ : St) (dir : String) (e : Json) (rest : List Json)
      (p u data : String),
      libraryPathOf e = some p → librarySkipped e = false →
      Fs.hasPath σ.fs (dir ++ "/" ++ p) = false → libraryUrlOf e = some u →
      net u = Except.ok data →
      downloadLibraries net σ dir (e :: rest) =
        downloadLibraries net ⟨Fs.write σ.fs (dir ++ "/" ++ p) data, σ.log ++ [u]⟩
          dir rest) := by
  refine ⟨?_, ?_, ?_, ?_⟩
  · intro e h
    simp [librarySkipped, h]
  · intro e r rest h
    simp [librarySkipped, h, Json.get0, Json.eqStr_iff]
  · intro net σ dir e rest p hpath hskip
    simp [downloadLibraries, hpath, hskip]
  · intro net σ dir e rest p u data hpath hskip habs hurl hn
    simp [downloadLibraries, hpath, hskip, habs, hurl, netFetch, hn]

/-- Claim C4 witness: the filter evaluated on concrete entries — no rule
list (included), first rule `windows` (included) and first rule `osx`
(skipped) each with a conflicting second rule, plus a concrete skip
step and a concrete download step. -/
theorem spec_library_filter_witness :
    librarySkipped libEntryA = false ∧
    (librarySkipped libEntryWin = false ↔
      ((Json.obj [("os", Json.obj [("name", Json.str "windows")])]).index "os").index
        "name" = Json.str "windows") ∧
    downloadLibraries netC3 ⟨[], []⟩ "L" [libEntryOsx, libEntryB] =
      downloadLibraries netC3 ⟨[], []⟩ "L" [libEntryB] ∧
    downloadLibraries (fun _ => Except.ok "wd") ⟨[], []⟩ "L" [libEntryWin] =
      downloadLibraries (fun _ => Except.ok "wd")
        ⟨Fs.write [] ("L" ++ "/" ++ "w.jar") "wd", [] ++ ["uW"]⟩ "L" [] :=
  ⟨spec_library_filter.1 libEntryA rfl,
   spec_library_filter.2.1 libEntryWin
     (Json.obj [("os", Json.obj [("name", Json.str "windows")])])
     [Json.obj [("os", Json.obj [("name", Json.str "osx")])]] rfl,
   spec_library_filter.2.2.1 netC3 ⟨[], []⟩ "L" libEntryOsx [libEntryB] "m.jar" rfl rfl,
   spec_library_filter.2.2.2 (fun _ => Except.ok "wd") ⟨[], []⟩ "L" libEntryWin []
     "w.jar" "uW" "wd" rfl rfl rfl rfl rfl⟩

/-- Claim C2: Bounded concurrency.  In every pool state reachable from
the initial state of the spawned task list, the number of
simultaneously in-flight asset fetches never exceeds the semaphore's
five permits (`Semaphore::new(5)`); a waiting task can move in-flight
only when a permit is free. -/
theorem spec_bounded_concurrency (ts : List DLTask) (s : PoolState)
    (h : PoolReachable ts s) : inFlightCount s ≤ semaphorePermits := by
  have hinv := pool_invariant ts s h
  omega

/-- Claim C2 witness: the bound evaluated in a reachable state of a
seven-task pool after one task has acquired a permit. -/
theorem spec_bounded_concurrency_witness :
    inFlightCount ⟨semaphorePermits - 1,
      (sevenTasks.map fun _ => TaskPhase.waiting).set 0 TaskPhase.inFlight⟩ ≤
      semaphorePermits :=
  spec_bounded_concurrency sevenTasks _
    (PoolReachable.step PoolReachable.init
      (PoolStep.acquire (initPool sevenTasks) 0 (by decide) (by decide)))

/-- Claim C6: Fatal-stage atomicity.  With no cached manifest and a
failing manifest GET, `create_profile` aborts having logged exactly
that one request: the filesystem is returned unchanged — in particular
nothing under `assets/` or `libraries/` is written — and no asset or
library download task is created or fetched. -/
theorem spec_fatal_stage (net : Net) (σ : St) (cwd msg : String)
    (hcache : Fs.lookup σ.fs (cwd ++ "/1.20.4.json") = none)
    (hfail : net MINECRAFT_1_20_4_META_URL = Except.error msg) :
    createProfile net σ cwd =
      ({ σ with log := σ.log ++ [MINECRAFT_1_20_4_META_URL] }, Except.error msg) := by
  simp [createProfile, getMinecraftMeta, netFetch, hcache, hfail]

/-- Claim C6 witness: a concrete aborted run against a failing network
and an empty store. -/
theorem spec_fatal_stage_witness :
    createProfile netC6 ⟨[], []⟩ "/c" =
      (⟨[], [MINECRAFT_1_20_4_META_URL]⟩, Except.error "boom") :=
  spec_fatal_stage netC6 ⟨[], []⟩ "/c" "boom" rfl rfl

/-- Claim C5 counterexample: `get_minecraft_meta` does not persist the
response body.  Against a network answering the two-byte document
consisting of an opening brace, a space and a closing brace, the file
written at the cache path is the compact re-serialization of the
parsed document, which differs from the body. -/
theorem spec_manifest_cache_cex :
    netC5 MINECRAFT_1_20_4_META_URL = Except.ok "\x7b \x7d" ∧
    Fs.lookup (getMinecraftMeta netC5 ⟨[], []⟩ "/c").1.fs "/c/1.20.4.json" =
      some "\x7b\x7d" ∧
    ("\x7b\x7d" : String) ≠ "\x7b \x7d" := by
  refine ⟨rfl, ?_, by decide⟩
  rfl

/-- Claim C5 amended: whenever the cached manifest document exists at
the deterministic local path, `get_minecraft_meta` parses and returns
the local copy with no network call; only when it is absent does it
GET the pinned URL, persist the compact serialization of the parsed
body (not necessarily the raw body bytes) to the cache path, and
return the parsed manifest. -/
theorem spec_manifest_cache_amended :
    (∀ (net : Net) (σ : St) (cwd s : String) (j : Json),
      Fs.lookup σ.fs (cwd ++ "/1.20.4.json") = some s → Json.parse s = some j →
      getMinecraftMeta net σ cwd = (σ, Except.ok j)) ∧
    (∀ (net : Net) (σ : St) (cwd body : String) (j : Json),
      Fs.lookup σ.fs (cwd ++ "/1.20.4.json") = none →
      net MINECRAFT_1_20_4_META_URL = Except.ok body → Json.parse body = some j →
      getMinecraftMeta net σ cwd =
        (⟨Fs.write σ.fs (cwd ++ "/1.20.4.json") j.toString,
          σ.log ++ [MINECRAFT_1_20_4_META_URL]⟩, Except.ok j)) := by
  constructor
  · intro net σ cwd s j hcache hparse
    simp [getMinecraftMeta, hcache, hparse]
  · intro net σ cwd body j hcache hnet hparse
    simp [getMinecraftMeta, netFetch, hcache, hnet, hparse]

/-- Claim C5 amended witness: a concrete cache hit returning the local
copy untouched, and a concrete cache miss persisting the compact
serialization. -/
theorem spec_manifest_cache_amended_witness :
    getMinecraftMeta netC5 ⟨[("/c/1.20.4.json", "null")], []⟩ "/c" =
      (⟨[("/c/1.20.4.json", "null")], []⟩, Except.ok Json.null) ∧
    getMinecraftMeta netC5 ⟨[], []⟩ "/c" =
      (⟨Fs.write [] ("/c" ++ "/1.20.4.json") (Json.obj []).toString,
        [] ++ [MINECRAFT_1_20_4_META_URL]⟩, Except.ok (Json.obj [])) :=
  ⟨spec_manifest_cache_amended.1 netC5 ⟨[("/c/1.20.4.json", "null")], []⟩ "/c" "null"
     Json.null rfl rfl,
   spec_manifest_cache_amended.2 netC5 ⟨[], []⟩ "/c" "\x7b \x7d" (Json.obj [])
     rfl rfl rfl⟩

/-- Claim C8 counterexample: the asset index is not persisted verbatim.
Against a network answering an index document carrying a stray space,
`download_assets` writes the compact re-serialization of the parsed
document at `assets/indexes/12.json`, which differs byte-for-byte from
the response body. -/
theorem spec_index_verbatim_cex :
    netC8 "uI8" = Except.ok "\x7b\"objects\":\x7b\x7d \x7d" ∧
    Fs.lookup (downloadAssets netC8 ⟨[], []⟩ "instance/assets" "12" "uI8").1.fs
      "instance/assets/indexes/12.json" = some "\x7b\"objects\":\x7b\x7d\x7d" ∧
    ("\x7b\"objects\":\x7b\x7d\x7d" : String) ≠ "\x7b\"objects\":\x7b\x7d \x7d" := by
  refine ⟨rfl, ?_, by decide⟩
  rfl

/-- Claim C8 amended: on every run the asset index is fetched with a
fresh GET — the index URL is logged first in the delta regardless of
the filesystem, so an existing `assets/indexes/<id>.json` causes no
short-circuit — and the document persisted at that path is the compact
serialization of the parsed response body (byte-identical to the body
only when the body is already in that form). -/
theorem spec_index_fetch_amended :
    (∀ (net : Net) (σ : St) (dir id aurl : String),
      ∃ l, (downloadAssets net σ dir id aurl).1.log = σ.log ++ aurl :: l) ∧
    (∀ (net : Net) (σ : St) (dir id aurl body : String) (idx : Json),
      net aurl = Except.ok body → Json.parse body = some idx →
      Fs.lookup (downloadAssets net σ dir id aurl).1.fs
        (dir ++ "/indexes/" ++ id ++ ".json") = some idx.toString) := by
  constructor
  · exact downloadAssets_log
  · intro net σ dir id aurl body idx hnet hparse
    cases ho : (idx.index "objects").asObject with
    | none =>
      simp [downloadAssets, netFetch, hnet, hparse, ho, Fs.lookup_write_self]
    | some objects =>
      cases ht : assetTasks
          (Fs.write σ.fs (dir ++ "/indexes/" ++ id ++ ".json") idx.toString)
          (dir ++ "/objects") objects with
      | error e =>
        simp [downloadAssets, netFetch, hnet, hparse, ho, ht, Fs.lookup_write_self]
      | ok ts =>
        simp only [downloadAssets, netFetch, hnet, hparse, ho, ht]
        have habs := assetTasks_absent _ _ _ _ ht
        have hne : ∀ t ∈ ts, t.dest ≠ dir ++ "/indexes/" ++ id ++ ".json" := by
          intro t htm heqd
          have h1 := habs t htm
          rw [heqd] at h1
          rw [Fs.hasPath, Fs.lookup_write_self] at h1
          exact Bool.noConfusion h1
        rw [runTasks_preserve _ _ _ _ hne]
        exact Fs.lookup_write_self _ _ _

/-- Claim C8 amended witness: a concrete run fetching the index URL
first even though the index file already exists, and persisting the
compact serialization. -/
theorem spec_index_fetch_amended_witness :
    (∃ l, (downloadAssets netC8 ⟨[("instance/assets/indexes/12.json", "old")], []⟩
      "instance/assets" "12" "uI8").1.log = [] ++ "uI8" :: l) ∧
    Fs.lookup (downloadAssets netC8 ⟨[], []⟩ "instance/assets" "12" "uI8").1.fs
      ("instance/assets" ++ "/indexes/" ++ "12" ++ ".json") =
      some (Json.obj [("objects", Json.obj [])]).toString :=
  ⟨spec_index_fetch_amended.1 netC8 ⟨[("instance/assets/indexes/12.json", "old")], []⟩
     "instance/assets" "12" "uI8",
   spec_index_fetch_amended.2 netC8 ⟨[], []⟩ "instance/assets" "12" "uI8"
     "\x7b\"objects\":\x7b\x7d \x7d" (Json.obj [("objects", Json.obj [])]) rfl rfl⟩

/-- Claim C3 counterexample: a failed library fetch does cancel sibling
tasks and is not recorded as a result.  With two library entries where
the first entry's URL answers a server error, `download_libraries`
panics after logging only that URL: the second entry is never fetched,
its artifact is never written, and no failure record exists anywhere
in the returned state — the run's only trace is the propagated
panic. -/
theorem spec_failure_isolation_cex :
    downloadLibraries netC3 ⟨[], []⟩ "instance/libraries" [libEntryA, libEntryB] =
      (⟨[], ["uA"]⟩, Except.error "server error") ∧
    Fs.hasPath (downloadLibraries netC3 ⟨[], []⟩ "instance/libraries"
      [libEntryA, libEntryB]).1.fs "instance/libraries/b.jar" = false ∧
    "uB" ∉ (downloadLibraries netC3 ⟨[], []⟩ "instance/libraries"
      [libEntryA, libEntryB]).1.log := by
  refine ⟨?_, by decide, by decide⟩
  rfl

/-- Claim C3 amended: a failing download panics instead of producing a
recorded result.  In `download_libraries` the panic aborts the
sequential loop, so every entry after the failing one is silently
skipped (no fetch, no write); in `download_assets` the spawned tasks
are independent — every task's fetch is attempted no matter how many
sibling fetches fail, a failed task simply writes nothing — and the
join results are discarded, so no failure is recorded there either. -/
theorem spec_failure_isolation_amended :
    (∀ (net : Net) (σ : St) (dir : String) (e : Json) (rest : List Json)
      (p u msg : String),
      libraryPathOf e = some p → librarySkipped e = false →
      Fs.hasPath σ.fs (dir ++ "/" ++ p) = false → libraryUrlOf e = some u →
      net u = Except.error msg →
      downloadLibraries net σ dir (e :: rest) =
        ({ σ with log := σ.log ++ [u] }, Except.error msg)) ∧
    (∀ (net : Net) (σ : St) (ts : List DLTask),
      (runTasks net σ ts).log = σ.log ++ ts.map DLTask.url) := by
  constructor
  · intro net σ dir e rest p u msg hpath hskip habs hurl hn
    simp [downloadLibraries, hpath, hskip, habs, hurl, netFetch, hn]
  · exact runTasks_log

/-- Claim C3 amended witness: the concrete blocked sibling run, and a
concrete task list in which the middle fetch fails while all three
fetches are still attempted. -/
theorem spec_failure_isolation_amended_witness :
    downloadLibraries netC3 ⟨[], []⟩ "instance/libraries" [libEntryA, libEntryB] =
      (⟨[], [] ++ ["uA"]⟩, Except.error "server error") ∧
    (runTasks netC3 ⟨[], []⟩ [⟨"uB", "d1"⟩, ⟨"uX", "d2"⟩, ⟨"uB", "d3"⟩]).log =
      [] ++ [⟨"uB", "d1"⟩, ⟨"uX", "d2"⟩, (⟨"uB", "d3"⟩ : DLTask)].map DLTask.url :=
  ⟨spec_failure_isolation_amended.1 netC3 ⟨[], []⟩ "instance/libraries" libEntryA
     [libEntryB] "a.jar" "uA" "server error" rfl rfl rfl rfl rfl,
   spec_failure_isolation_amended.2 netC3 ⟨[], []⟩
     [⟨"uB", "d1"⟩, ⟨"uX", "d2"⟩, ⟨"uB", "d3"⟩]⟩

/-- Claim C7 counterexample: per-hash task uniqueness fails.  Against an
asset index in which the two distinct names `x` and `y` both map to
the absent hash `aabb`, the spawn loop of `download_assets` creates
two download tasks targeting the same store path
`objects/aa/aabb` (the existence check precedes any completed write,
since the loop has no await point). -/
theorem spec_task_uniqueness_cex :
    (downloadAssets netC7 ⟨[], []⟩ "instance/assets" "12" "uI7").2 =
      Except.ok
        [⟨resourceUrl "aa" "aabb", "instance/assets/objects/aa/aabb"⟩,
         ⟨resourceUrl "aa" "aabb", "instance/assets/objects/aa/aabb"⟩] ∧
    1 < (((downloadAssets netC7 ⟨[], []⟩ "instance/assets" "12" "uI7").2.toOption.getD
      []).filter fun t => t.dest == "instance/assets/objects/aa/aabb").length := by
  refine ⟨?_, by decide⟩
  rfl

/-- Claim C7 amended: task creation is per-entry, not per-hash.  When
every entry's hash is extractable and sliceable, the spawn loop
creates exactly one task per index entry whose store path is absent
from the pre-loop filesystem and none for a present path; distinct
entries sharing an absent hash therefore each contribute their own
task targeting the same store path. -/
theorem spec_task_uniqueness_amended (fs : Fs) (P : String)
    (objects : List (String × Json))
    (h : ∀ kv ∈ objects, ∃ hsh bucket, ((kv.2).index "hash").asStr = some hsh ∧
      rustSliceTwo hsh = Except.ok bucket) :
    assetTasks fs P objects = Except.ok (objects.filterMap (taskOfEntry fs P)) :=
  assetTasks_filterMap fs P objects h

/-- Claim C7 amended witness: the duplicate-hash object list evaluated
through the per-entry characterization. -/
theorem spec_task_uniqueness_amended_witness :
    assetTasks [] "instance/assets/objects"
      [("x", Json.obj [("hash", Json.str "aabb")]),
       ("y", Json.obj [("hash", Json.str "aabb")])] =
      Except.ok
        ([("x", Json.obj [("hash", Json.str "aabb")]),
          ("y", Json.obj [("hash", Json.str "aabb")])].filterMap
          (taskOfEntry [] "instance/assets/objects")) :=
  spec_task_uniqueness_amended [] "instance/assets/objects"
    [("x", Json.obj [("hash", Json.str "aabb")]),
     ("y", Json.obj [("hash", Json.str "aabb")])]
    (by
      intro kv hkv
      rcases List.mem_cons.1 hkv with h1 | h1
      · subst h1; exact ⟨"aabb", "aa", rfl, rfl⟩
      · rcases List.mem_cons.1 h1 with h2 | h2
        · subst h2; exact ⟨"aabb", "aa", rfl, rfl⟩
        · cases h2)

/-- Claim C10: Implicit hash-shape precondition.  Rust's `&hash[0..2]`
succeeds exactly when the hash's UTF-8 encoding splits as a two-byte
prefix (a character-boundary at byte index 2 on a string of at least
two bytes); and an asset index containing any entry whose hash
violates this makes `download_assets` panic — the run ends in the
error channel (the modelled panic), never in a normal return. -/
theorem spec_hash_slice :
    (∀ h : String, (∃ pre, rustSliceTwo h = Except.ok pre) ↔
      (∃ l r, h.data = l ++ r ∧ (l.map Char.utf8Size).sum = 2)) ∧
    (∀ (net : Net) (σ : St) (dir id aurl body : String) (idx : Json)
      (objects : List (String × Json)) (k : String) (v : Json) (hsh : String),
      net aurl = Except.ok body → Json.parse body = some idx →
      (idx.index "objects").asObject = some objects → (k, v) ∈ objects →
      (v.index "hash").asStr = some hsh →
      (∀ b, rustSliceTwo hsh ≠ Except.ok b) →
      ∃ e, (downloadAssets net σ dir id aurl).2 = Except.error e) := by
  constructor
  · intro h
    constructor
    · rintro ⟨pre, hs⟩
      obtain ⟨t, hdata, sh⟩ := rustSliceTwo_shape h pre hs
      rcases sh with ⟨c, hc, hc2⟩ | ⟨c, d, hcd, hc1, hd1⟩
      · exact ⟨[c], t, by rw [hdata, hc], by simp [hc2]⟩
      · exact ⟨[c, d], t, by rw [hdata, hcd], by simp [hc1, hd1]⟩
    · rintro ⟨l, r, hdata, hsum⟩
      cases l with
      | nil => simp at hsum
      | cons c l1 =>
        cases l1 with
        | nil =>
          have hc2 : c.utf8Size = 2 := by simpa using hsum
          refine ⟨String.mk [c], ?_⟩
          simp [rustSliceTwo, hdata, hc2]
        | cons d l2 =>
          cases l2 with
          | nil =>
            have h1 : c.utf8Size + d.utf8Size = 2 := by simpa using hsum
            have hcpos := Char.utf8Size_pos c
            have hdpos := Char.utf8Size_pos d
            have hc1 : c.utf8Size = 1 := by omega
            have hd1 : d.utf8Size = 1 := by omega
            refine ⟨String.mk [c, d], ?_⟩
            simp [rustSliceTwo, hdata, hc1, hd1]
          | cons e l3 =>
            have hcpos := Char.utf8Size_pos c
            have hdpos := Char.utf8Size_pos d
            have hepos := Char.utf8Size_pos e
            have hs3 : c.utf8Size + (d.utf8Size + (e.utf8Size +
                (l3.map Char.utf8Size).sum)) = 2 := by
              simpa [Nat.add_assoc] using hsum
            omega
  · intro net σ dir id aurl body idx objects k v hsh hnet hparse hobj hmem hhash hbad
    obtain ⟨e, he⟩ := assetTasks_error_of_mem
      (Fs.write σ.fs (dir ++ "/indexes/" ++ id ++ ".json") idx.toString)
      (dir ++ "/objects") objects k v hsh hmem hhash hbad
    refine ⟨e, ?_⟩
    simp [downloadAssets, netFetch, hnet, hparse, hobj, he]

/-- Claim C10 witness: the characterization applied to the hash `aabb`,
and a concrete index holding the one-byte hash `a` on which
`download_assets` panics. -/
theorem spec_hash_slice_witness :
    (∃ pre, rustSliceTwo "aabb" = Except.ok pre) ∧
    (∃ e, (downloadAssets netC10 ⟨[], []⟩ "instance/assets" "12" "uI10").2 =
      Except.error e) :=
  ⟨(spec_hash_slice.1 "aabb").2 ⟨['a', 'a'], ['b', 'b'], rfl, rfl⟩,
   spec_hash_slice.2 netC10 ⟨[], []⟩ "instance/assets" "12" "uI10"
     "\x7b\"objects\":\x7b\"z\":\x7b\"hash\":\"a\"\x7d\x7d\x7d"
     (Json.obj [("objects", Json.obj [("z", Json.obj [("hash", Json.str "a")])])])
     [("z", Json.obj [("hash", Json.str "a")])] "z"
     (Json.obj [("hash", Json.str "a")]) "a" rfl rfl rfl (by simp) rfl
     (by
       intro b hcontra
       rw [show rustSliceTwo "a" = Except.error "byte index 2 is out of bounds" from rfl]
         at hcontra
       exact Except.noConfusion hcontra)⟩

set_option maxRecDepth 20000 in
/-- Claim C9 counterexample: the asset index is not fetched before
library processing.  In a concrete full run the logged request order
is manifest, client, library artifact, asset index: the library
download `uL` precedes the asset-index fetch `uI`. -/
theorem spec_stage_order_cex :
    (createProfile netC9 ⟨[], []⟩ "/c").1.log =
      [MINECRAFT_1_20_4_META_URL, "uC", "uL", "uI"] ∧
    List.indexOf "uL" (createProfile netC9 ⟨[], []⟩ "/c").1.log <
      List.indexOf "uI" (createProfile netC9 ⟨[], []⟩ "/c").1.log := by
  refine ⟨by rfl, by decide⟩

/-- Claim C9 amended: the run sequences resolve manifest → write config
→ download client → filter and download libraries entry by entry →
fetch asset index and create/run asset tasks → copy the launcher
executable.  In particular every library fetch is logged during the
library stage, and the asset-index fetch is the first request logged
after that stage completes. -/
theorem spec_stage_order_amended (net : Net) (σ σ3 σ4 : St) (cwd body : String)
    (meta : Json) (clientJarUrl : String) (libraryEntries : List Json)
    (assetsUrl : String)
    (hcache : Fs.lookup σ.fs (cwd ++ "/1.20.4.json") = none)
    (hnet : net MINECRAFT_1_20_4_META_URL = Except.ok body)
    (hparse : Json.parse body = some meta)
    (hclient : (((meta.index "downloads").index "client").index "url").asStr =
      some clientJarUrl)
    (hlibs : (meta.index "libraries").asArray = some libraryEntries)
    (hassets : ((meta.index "assetIndex").index "url").asStr = some assetsUrl)
    (hdc : downloadClient net
        (createConfig ⟨Fs.write σ.fs (cwd ++ "/1.20.4.json") meta.toString,
          σ.log ++ [MINECRAFT_1_20_4_META_URL]⟩ "instance") "instance" clientJarUrl =
      (σ3, Except.ok ()))
    (hdl : downloadLibraries net σ3 "instance/libraries" libraryEntries =
      (σ4, Except.ok ())) :
    (∃ lLib, σ4.log = σ3.log ++ lLib) ∧
    (∃ lAssets, (createProfile net σ cwd).1.log = σ4.log ++ assetsUrl :: lAssets) := by
  constructor
  · have hmono := downloadLibraries_log_mono net σ3 "instance/libraries" libraryEntries
    rwa [hdl] at hmono
  · obtain ⟨l, hl⟩ := downloadAssets_log net σ4 "instance/assets" "12" assetsUrl
    refine ⟨l, ?_⟩
    simp only [createProfile, getMinecraftMeta, netFetch, hcache, hnet, hparse,
      hclient, hlibs, hassets, hdc, hdl]
    rcases hda : downloadAssets net σ4 "instance/assets" "12" assetsUrl with ⟨σ5, r⟩
    rw [hda] at hl
    cases r <;> simpa using hl

set_option maxRecDepth 20000 in
/-- Claim C9 amended witness: the stage decomposition applied to a
concrete full run, with the post-client and post-library states given
explicitly. -/
theorem spec_stage_order_amended_witness :
    (∃ lLib, (⟨[("/c/1.20.4.json",
        "\x7b\"assetIndex\":\x7b\"url\":\"uI\"\x7d,\"downloads\":\x7b\"client\":\x7b\"url\":\"uC\"\x7d\x7d,\"libraries\":[\x7b\"downloads\":\x7b\"artifact\":\x7b\"path\":\"a.jar\",\"url\":\"uL\"\x7d\x7d\x7d]\x7d"),
       ("instance/LauncherConfig.toml", "username = \"Username\"\n"),
       ("instance/client.jar", "cbytes"),
       ("instance/libraries/a.jar", "lbytes")],
      [MINECRAFT_1_20_4_META_URL, "uC", "uL"]⟩ : St).log =
      (⟨[("/c/1.20.4.json",
        "\x7b\"assetIndex\":\x7b\"url\":\"uI\"\x7d,\"downloads\":\x7b\"client\":\x7b\"url\":\"uC\"\x7d\x7d,\"libraries\":[\x7b\"downloads\":\x7b\"artifact\":\x7b\"path\":\"a.jar\",\"url\":\"uL\"\x7d\x7d\x7d]\x7d"),
       ("instance/LauncherConfig.toml", "username = \"Username\"\n"),
       ("instance/client.jar", "cbytes")],
      [MINECRAFT_1_20_4_META_URL, "uC"]⟩ : St).log ++ lLib) ∧
    (∃ lAssets, (createProfile netC9 ⟨[], []⟩ "/c").1.log =
      (⟨[("/c/1.20.4.json",
        "\x7b\"assetIndex\":\x7b\"url\":\"uI\"\x7d,\"downloads\":\x7b\"client\":\x7b\"url\":\"uC\"\x7d\x7d,\"libraries\":[\x7b\"downloads\":\x7b\"artifact\":\x7b\"path\":\"a.jar\",\"url\":\"uL\"\x7d\x7d\x7d]\x7d"),
       ("instance/LauncherConfig.toml", "username = \"Username\"\n"),
       ("instance/client.jar", "cbytes"),
       ("instance/libraries/a.jar", "lbytes")],
      [MINECRAFT_1_20_4_META_URL, "uC", "uL"]⟩ : St).log ++ "uI" :: lAssets) :=
  spec_stage_order_amended netC9 ⟨[], []⟩
    ⟨[("/c/1.20.4.json",
        "\x7b\"assetIndex\":\x7b\"url\":\"uI\"\x7d,\"downloads\":\x7b\"client\":\x7b\"url\":\"uC\"\x7d\x7d,\"libraries\":[\x7b\"downloads\":\x7b\"artifact\":\x7b\"path\":\"a.jar\",\"url\":\"uL\"\x7d\x7d\x7d]\x7d"),
      ("instance/LauncherConfig.toml", "username = \"Username\"\n"),
      ("instance/client.jar", "cbytes")],
     [MINECRAFT_1_20_4_META_URL, "uC"]⟩
    ⟨[("/c/1.20.4.json",
        "\x7b\"assetIndex\":\x7b\"url\":\"uI\"\x7d,\"downloads\":\x7b\"client\":\x7b\"url\":\"uC\"\x7d\x7d,\"libraries\":[\x7b\"downloads\":\x7b\"artifact\":\x7b\"path\":\"a.jar\",\"url\":\"uL\"\x7d\x7d\x7d]\x7d"),
      ("instance/LauncherConfig.toml", "username = \"Username\"\n"),
      ("instance/client.jar", "cbytes"),
      ("instance/libraries/a.jar", "lbytes")],
     [MINECRAFT_1_20_4_META_URL, "uC", "uL"]⟩
    "/c"
    "\x7b\"assetIndex\":\x7b\"url\":\"uI\"\x7d,\"downloads\":\x7b\"client\":\x7b\"url\":\"uC\"\x7d\x7d,\"libraries\":[\x7b\"downloads\":\x7b\"artifact\":\x7b\"path\":\"a.jar\",\"url\":\"uL\"\x7d\x7d\x7d]\x7d"
    (Json.obj [("assetIndex", Json.obj [("url", Json.str "uI")]),
      ("downloads", Json.obj [("client", Json.obj [("url", Json.str "uC")])]),
      ("libraries", Json.arr [Json.obj [("downloads",
        Json.obj [("artifact",
          Json.obj [("path", Json.str "a.jar"), ("url", Json.str "uL")])])]])])
    "uC"
    [Json.obj [("downloads",
      Json.obj [("artifact",
        Json.obj [("path", Json.str "a.jar"), ("url", Json.str "uL")])])]]
    "uI" rfl rfl (by rfl) rfl rfl rfl (by decide) (by decide)

theorem indexPath_ne_objectPath (dir id pre hsh : String) :
    dir ++ "/indexes/" ++ id ++ ".json" ≠ dir ++ "/objects" ++ "/" ++ pre ++ "/" ++ hsh := by
  intro heq
  have h' := congrArg String.data heq
  simp only [String.data_append, List.append_assoc] at h'
  have h'' := List.append_cancel_left h'
  simp at h''

/-- Claim C1: Dedup/idempotence.  (1) An asset entry whose hash-addressed
object path already exists triggers no fetch of its resource URL and
its file's contents survive the run unchanged; (2) a library entry
whose artifact path exists contributes nothing — the run continues
exactly as if the entry were absent; (3) an existing `client.jar`
short-circuits `download_client` entirely; (4) hence a second
`create_profile` run against a fully populated store performs zero
object/library/client downloads — its only request is the asset-index
GET — and rewrites only the index file and the launcher copy, leaving
every store object untouched. -/
theorem spec_dedup_idempotence :
    (∀ (net : Net) (σ : St) (dir id aurl body : String) (idx : Json)
      (objects : List (String × Json)) (k : String) (v : Json) (hsh pre : String),
      net aurl = Except.ok body → Json.parse body = some idx →
      (idx.index "objects").asObject = some objects → (k, v) ∈ objects →
      (v.index "hash").asStr = some hsh → rustSliceTwo hsh = Except.ok pre →
      Fs.hasPath σ.fs (dir ++ "/objects" ++ "/" ++ pre ++ "/" ++ hsh) = true →
      Fs.lookup (downloadAssets net σ dir id aurl).1.fs
          (dir ++ "/objects" ++ "/" ++ pre ++ "/" ++ hsh) =
        Fs.lookup σ.fs (dir ++ "/objects" ++ "/" ++ pre ++ "/" ++ hsh) ∧
      ∃ lA, (downloadAssets net σ dir id aurl).1.log = σ.log ++ aurl :: lA ∧
        resourceUrl pre hsh ∉ lA) ∧
    (∀ (net : Net) (σ : St) (dir : String) (e : Json) (rest : List Json) (p : String),
      libraryPathOf e = some p → Fs.hasPath σ.fs (dir ++ "/" ++ p) = true →
      downloadLibraries net σ dir (e :: rest) = downloadLibraries net σ dir rest) ∧
    (∀ (net : Net) (σ : St) (dir u : String),
      Fs.hasPath σ.fs (dir ++ "/client.jar") = true →
      downloadClient net σ dir u = (σ, Except.ok ())) ∧
    (∀ (net : Net) (σ : St) (cwd cachedS : String) (meta : Json)
      (clientJarUrl : String) (libraryEntries : List Json) (assetsUrl ibody : String)
      (idx : Json) (objects : List (String × Json)),
      Fs.lookup σ.fs (cwd ++ "/1.20.4.json") = some cachedS →
      Json.parse cachedS = some meta →
      (((meta.index "downloads").index "client").index "url").asStr = some clientJarUrl →
      (meta.index "libraries").asArray = some libraryEntries →
      ((meta.index "assetIndex").index "url").asStr = some assetsUrl →
      Fs.hasPath σ.fs ("instance" ++ "/LauncherConfig.toml") = true →
      Fs.hasPath σ.fs ("instance" ++ "/client.jar") = true →
      (∀ e ∈ libraryEntries, ∃ p, libraryPathOf e = some p ∧
        (librarySkipped e = true ∨
          Fs.hasPath σ.fs ("instance/libraries" ++ "/" ++ p) = true)) →
      net assetsUrl = Except.ok ibody → Json.parse ibody = some idx →
      (idx.index "objects").asObject = some objects →
      (∀ kv ∈ objects, ∃ hsh bucket, ((kv.2).index "hash").asStr = some hsh ∧
        rustSliceTwo hsh = Except.ok bucket ∧
        Fs.hasPath
          (Fs.write σ.fs ("instance/assets" ++ "/indexes/" ++ "12" ++ ".json")
            idx.toString)
          ("instance/assets" ++ "/objects" ++ "/" ++ bucket ++ "/" ++ hsh) = true) →
      createProfile net σ cwd =
        (⟨Fs.write
            (Fs.write σ.fs ("instance/assets" ++ "/indexes/" ++ "12" ++ ".json")
              idx.toString)
            "instance/start.exe" launcherExeBytes,
          σ.log ++ [assetsUrl]⟩, Except.ok ())) := by
  refine ⟨?_, ?_, ?_, ?_⟩
  · intro net σ dir id aurl body idx objects k v hsh pre hnet hparse hobj hmem hhash
      hslice hpres
    have hidxne := indexPath_ne_objectPath dir id pre hsh
    cases ht : assetTasks
        (Fs.write σ.fs (dir ++ "/indexes/" ++ id ++ ".json") idx.toString)
        (dir ++ "/objects") objects with
    | error e =>
      constructor
      · simp only [downloadAssets, netFetch, hnet, hparse, hobj, ht]
        exact Fs.lookup_write_ne _ _ _ _ hidxne
      · refine ⟨[], ?_, by simp⟩
        simp [downloadAssets, netFetch, hnet, hparse, hobj, ht]
    | ok ts =>
      have habs := assetTasks_absent _ _ _ _ ht
      have hpres2 : Fs.hasPath
          (Fs.write σ.fs (dir ++ "/indexes/" ++ id ++ ".json") idx.toString)
          (dir ++ "/objects" ++ "/" ++ pre ++ "/" ++ hsh) = true :=
        Fs.hasPath_write_mono _ _ _ _ hpres
      have hne : ∀ t ∈ ts, t.dest ≠ dir ++ "/objects" ++ "/" ++ pre ++ "/" ++ hsh := by
        intro t htm heqd
        have hfalse := habs t htm
        rw [heqd, hpres2] at hfalse
        exact Bool.noConfusion hfalse
      constructor
      · simp only [downloadAssets, netFetch, hnet, hparse, hobj, ht]
        rw [runTasks_preserve _ _ _ _ hne]
        exact Fs.lookup_write_ne _ _ _ _ hidxne
      · refine ⟨ts.map DLTask.url, ?_, ?_⟩
        · simp [downloadAssets, netFetch, hnet, hparse, hobj, ht, runTasks_log]
        · intro hin
          obtain ⟨t, htm, hu⟩ := List.mem_map.1 hin
          obtain ⟨k', v', hsh', pre', hmem', hhash', hslice', hteq⟩ :=
            assetTasks_mem _ _ _ _ ht t htm
          have hurl : resourceUrl pre' hsh' = resourceUrl pre hsh := by
            rw [hteq] at hu; exact hu
          obtain ⟨hh, hp⟩ := resourceUrl_inj hsh' hsh pre' pre hslice' hslice hurl
          subst hh; subst hp
          have hcontra := hne t htm
          rw [hteq] at hcontra
          exact hcontra rfl
  · intro net σ dir e rest p hpath hpres
    exact downloadLibraries_skip_head net σ dir e rest p hpath hpres
  · intro net σ dir u h
    exact downloadClient_present net σ dir u h
  · intro net σ cwd cachedS meta clientJarUrl libraryEntries assetsUrl ibody idx
      objects hcache hcparse hclient hlibs hassets hconfig hjar hlibsPresent hinet
      hiparse hiobj hpresent
    have htasks := assetTasks_nil_of_present
      (Fs.write σ.fs ("instance/assets" ++ "/indexes/" ++ "12" ++ ".json") idx.toString)
      ("instance/assets" ++ "/objects") objects hpresent
    simp only [createProfile, getMinecraftMeta, hcache, hcparse, hclient, hlibs,
      hassets, createConfig, hconfig, if_true,
      downloadClient_present net σ "instance" clientJarUrl hjar,
      downloadLibraries_present net σ "instance/libraries" libraryEntries hlibsPresent,
      downloadAssets, netFetch, hinet, hiparse, hiobj, htasks, runTasks]

set_option maxRecDepth 20000 in
/-- Claim C1 witness: a concrete second run against the fully populated
store `fsC1` under a network where every URL but the asset index
fails — the run succeeds, logs only the asset-index GET, and rewrites
only the index file and the launcher copy; plus concrete present-item
short-circuits for a library entry and the client jar. -/
theorem spec_dedup_idempotence_witness :
    downloadLibraries netC1 ⟨fsC1, []⟩ "instance/libraries" [libEntryA] =
      downloadLibraries netC1 ⟨fsC1, []⟩ "instance/libraries" [] ∧
    downloadClient netC1 ⟨fsC1, []⟩ "instance" "uC" = (⟨fsC1, []⟩, Except.ok ()) ∧
    createProfile netC1 ⟨fsC1, []⟩ "/c" =
      (⟨Fs.write
          (Fs.write fsC1 ("instance/assets" ++ "/indexes/" ++ "12" ++ ".json")
            (Json.obj [("objects",
              Json.obj [("x", Json.obj [("hash", Json.str "aabb")])])]).toString)
          "instance/start.exe" launcherExeBytes,
        [] ++ ["uI"]⟩, Except.ok ()) :=
  ⟨spec_dedup_idempotence.2.1 netC1 ⟨fsC1, []⟩ "instance/libraries" libEntryA []
     "a.jar" rfl (by decide),
   spec_dedup_idempotence.2.2.1 netC1 ⟨fsC1, []⟩ "instance" "uC" (by decide),
   spec_dedup_idempotence.2.2.2 netC1 ⟨fsC1, []⟩ "/c"
     "\x7b\"assetIndex\":\x7b\"url\":\"uI\"\x7d,\"downloads\":\x7b\"client\":\x7b\"url\":\"uC\"\x7d\x7d,\"libraries\":[\x7b\"downloads\":\x7b\"artifact\":\x7b\"path\":\"a.jar\",\"url\":\"uL\"\x7d\x7d\x7d]\x7d"
     (Json.obj [("assetIndex", Json.obj [("url", Json.str "uI")]),
       ("downloads", Json.obj [("client", Json.obj [("url", Json.str "uC")])]),
       ("libraries", Json.arr [Json.obj [("downloads",
         Json.obj [("artifact",
           Json.obj [("path", Json.str "a.jar"), ("url", Json.str "uL")])])]])])
     "uC"
     [Json.obj [("downloads",
       Json.obj [("artifact",
         Json.obj [("path", Json.str "a.jar"), ("url", Json.str "uL")])])]]
     "uI"
     "\x7b\"objects\":\x7b\"x\":\x7b\"hash\":\"aabb\"\x7d\x7d\x7d"
     (Json.obj [("objects", Json.obj [("x", Json.obj [("hash", Json.str "aabb")])])])
     [("x", Json.obj [("hash", Json.str "aabb")])]
     rfl (by rfl) rfl rfl rfl (by decide) (by decide)
     (by
       intro e he
       rw [List.mem_singleton] at he
       subst he
       exact ⟨"a.jar", rfl, Or.inr (by decide)⟩)
     rfl (by rfl) rfl
     (by
       intro kv hkv
       rw [List.mem_singleton] at hkv
       subst hkv
       exact ⟨"aabb", "aa", rfl, rfl, by decide⟩)⟩
